import Mathlib

/-!
Verification of the letterbox-removal core in `unboxing.py`.

The embedding below translates the pure image-processing core of the
repository: the pixel predicate `is_pixel_black`, the four edge scanners
`detect_top_border`, `detect_bottom_border`, `detect_left_border`,
`detect_right_border`, and the entry point `unletterbox`.  An image is a
finite pixel grid; the external image library (PIL) is modelled only to the
extent the core touches it: `convert("L")` becomes `toGrayscale` (pixelwise
ITU-R 601-2 luminance, the formula documented for the library), and
`Image.crop` becomes `Image.crop`, which reproduces the library check that
raises a ValueError when the box is inverted.  Encoded output is modelled as
the cropped pixel grid tagged with the original format string, mirroring
`cropped_img.save(buffer, format=image.format)`.
-/

/-- A pixel as the Python code sees it: a bare int for a grayscale image,
or an RGB triple for a color image.  Channel values are naturals. -/
inductive Pixel where
  | gray (v : Nat)
  | rgb (r g b : Nat)
deriving DecidableEq, Repr

/-- An in-memory decoded image: dimensions, the source encoding format
(PIL `Image.format`, e.g. "PNG"), and the pixel grid.  `px x y` is the
pixel at column `x`, row `y`; values outside the grid are irrelevant. -/
@[ext] structure Image where
  width : Nat
  height : Nat
  format : String
  px : Nat → Nat → Pixel

/-- `is_pixel_black` from unboxing.py: a grayscale int pixel is black iff
strictly below the threshold; an RGB tuple is black iff every channel is
at most the threshold (non-strict). -/
def is_pixel_black (pixel : Pixel) (black_threshold : Nat) : Bool :=
  match pixel with
  | .gray v => decide (v < black_threshold)
  | .rgb r g b =>
      decide (r ≤ black_threshold) && decide (g ≤ black_threshold) &&
        decide (b ≤ black_threshold)

/-- Luminance of a pixel, modelling PIL `convert("L")` on one pixel:
already-grayscale pixels are unchanged, RGB uses the ITU-R 601-2 formula
L = (299 R + 587 G + 114 B) / 1000 documented for the library. -/
def luminance : Pixel → Nat
  | .gray v => v
  | .rgb r g b => (299 * r + 587 * g + 114 * b) / 1000

/-- `image.convert("L")`: same dimensions and format, every pixel replaced
by its single-channel luminance value. -/
def toGrayscale (image : Image) : Image :=
  { image with px := fun x y => Pixel.gray (luminance (image.px x y)) }

/-- The pixel list of row `y`, left to right: models
`image.crop((0, y, width, y + 1)).getdata()`. -/
def row_pixels (image : Image) (y : Nat) : List Pixel :=
  (List.range image.width).map (fun x => image.px x y)

/-- The pixel list of column `x`, top to bottom: models
`image.crop((x, 0, x + 1, height)).getdata()`. -/
def col_pixels (image : Image) (x : Nat) : List Pixel :=
  (List.range image.height).map (fun y => image.px x y)

/-- `all(is_pixel_black(pixel, black_threshold) for pixel in pixels)`:
a line counts as border only if every pixel on it is black.  An empty
line is vacuously all-black, exactly like Python `all([])`. -/
def line_all_black (pixels : List Pixel) (black_threshold : Nat) : Bool :=
  pixels.all (fun pixel => is_pixel_black pixel black_threshold)

/-- The shared loop shape of the four scanners: starting at index `start`
with `n` lines left, count consecutive indices satisfying `p`, stopping at
the first failure.  `scanCount p 0 n` is the value the Python loop
`for i in range(n): if p(i): continue; return i` followed by `return n`
produces. -/
def scanCount (p : Nat → Bool) (start : Nat) : Nat → Nat
  | 0 => 0
  | n + 1 => if p start then scanCount p (start + 1) n + 1 else 0

/-- `detect_top_border`: walk rows from `y = 0` downward, return the index
of the first row containing a non-black pixel, or `height` if none. -/
def detect_top_border (image : Image) (black_threshold : Nat) : Nat :=
  scanCount (fun y => line_all_black (row_pixels image y) black_threshold)
    0 image.height

/-- `detect_bottom_border`: walk rows from `y = height - 1` upward; on the
first non-black row return `height - y - 1`, i.e. the count of black rows
below it; `height` if every row is black. -/
def detect_bottom_border (image : Image) (black_threshold : Nat) : Nat :=
  scanCount
    (fun k => line_all_black (row_pixels image (image.height - 1 - k))
      black_threshold)
    0 image.height

/-- `detect_left_border`: walk columns from `x = 0` rightward, return the
index of the first column containing a non-black pixel, or `width`. -/
def detect_left_border (image : Image) (black_threshold : Nat) : Nat :=
  scanCount (fun x => line_all_black (col_pixels image x) black_threshold)
    0 image.width

/-- `detect_right_border`: walk columns from `x = width - 1` leftward; on
the first non-black column return `width - x - 1`; `width` otherwise. -/
def detect_right_border (image : Image) (black_threshold : Nat) : Nat :=
  scanCount
    (fun k => line_all_black (col_pixels image (image.width - 1 - k))
      black_threshold)
    0 image.width

/-- PIL `Image.crop((x0, y0, x1, y1))` as the core uses it (the box the
core passes never has negative coordinates, so naturals suffice): the
library raises a ValueError when the box is inverted, otherwise yields the
`(x1 - x0) × (y1 - y0)` sub-grid whose pixel `(x, y)` is the original pixel
`(x0 + x, y0 + y)`.  A fresh crop has no source format (PIL sets `format`
to None on derived images). -/
def Image.crop (image : Image) (x0 y0 x1 y1 : Nat) : Except String Image :=
  if x1 < x0 then
    Except.error "Coordinate right is less than left"
  else if y1 < y0 then
    Except.error "Coordinate lower is less than upper"
  else
    Except.ok
      { width := x1 - x0
        height := y1 - y0
        format := ""
        px := fun x y => image.px (x0 + x) (y0 + y) }

/-- `unletterbox`: convert the decoded image to grayscale, measure the four
borders on that view, crop the ORIGINAL image to
`(left, top, width - right, height - bottom)`, and encode the result in the
original format (`cropped_img.save(buffer, format=image.format)` is
modelled by tagging the crop with the source format). -/
def unletterbox (image : Image) (black_threshold : Nat) :
    Except String Image :=
  let grayscale_image := toGrayscale image
  let top := detect_top_border grayscale_image black_threshold
  let bottom := detect_bottom_border grayscale_image black_threshold
  let left := detect_left_border grayscale_image black_threshold
  let right := detect_right_border grayscale_image black_threshold
  match image.crop left top (image.width - right) (image.height - bottom) with
  | Except.error e => Except.error e
  | Except.ok cropped =>
      Except.ok { cropped with format := image.format }

/-- 2 × 2 image, every pixel the grayscale value 0. -/
def allBlack2 : Image := ⟨2, 2, "PNG", fun _ _ => Pixel.gray 0⟩

/-- 1 × 1 image whose single pixel is the grayscale value 0. -/
def zero1 : Image := ⟨1, 1, "PNG", fun _ _ => Pixel.gray 0⟩

/-- 1 × 1 image whose single pixel is the bright grayscale value 200. -/
def white1 : Image := ⟨1, 1, "PNG", fun _ _ => Pixel.gray 200⟩

/-- Degenerate 0-wide, 1-tall image (the spec allows zero extents). -/
def empty01 : Image := ⟨0, 1, "PNG", fun _ _ => Pixel.gray 7⟩

/-! ### Lemmas about the shared scanner loop `scanCount` -/

theorem scanCount_le (p : Nat → Bool) (start n : Nat) :
    scanCount p start n ≤ n := by
  induction n generalizing start with
  | zero => simp [scanCount]
  | succ n ih =>
    by_cases h : p start = true
    · simpa [scanCount, h] using ih (start + 1)
    · simp [scanCount, h]

theorem scanCount_eq_of_all (p : Nat → Bool) (start n : Nat)
    (h : ∀ k < n, p (start + k) = true) : scanCount p start n = n := by
  induction n generalizing start with
  | zero => simp [scanCount]
  | succ n ih =>
    have h0 : p start = true := by simpa using h 0 (Nat.succ_pos n)
    have hrest : ∀ k < n, p (start + 1 + k) = true := by
      intro k hk
      have := h (k + 1) (Nat.succ_lt_succ hk)
      simpa [Nat.add_assoc, Nat.add_comm 1 k] using this
    simp [scanCount, h0, ih (start + 1) hrest]

theorem scanCount_prefix (p : Nat → Bool) (start n : Nat) :
    ∀ k < scanCount p start n, p (start + k) = true := by
  induction n generalizing start with
  | zero => simp [scanCount]
  | succ n ih =>
    intro k hk
    by_cases h : p start = true
    · match k with
      | 0 => simpa using h
      | k + 1 =>
        have hk' : k < scanCount p (start + 1) n := by
          have : k + 1 < scanCount p (start + 1) n + 1 := by
            simpa [scanCount, h] using hk
          omega
        have := ih (start + 1) k hk'
        simpa [Nat.add_assoc, Nat.add_comm 1 k] using this
    · simp [scanCount, h] at hk

theorem scanCount_stop (p : Nat → Bool) (start n : Nat)
    (h : scanCount p start n < n) : p (start + scanCount p start n) = false := by
  induction n generalizing start with
  | zero => omega
  | succ n ih =>
    by_cases hp : p start = true
    · have hlt : scanCount p (start + 1) n < n := by
        have : scanCount p start (n + 1) = scanCount p (start + 1) n + 1 := by
          simp [scanCount, hp]
        omega
      have := ih (start + 1) hlt
      have hval : scanCount p start (n + 1) = scanCount p (start + 1) n + 1 := by
        simp [scanCount, hp]
      rw [hval]
      simpa [Nat.add_assoc, Nat.add_comm 1 (scanCount p (start + 1) n)] using this
    · simp [scanCount, hp, Bool.eq_false_iff.mpr hp]

theorem scanCount_mono (p q : Nat → Bool) (start n : Nat)
    (h : ∀ i, p i = true → q i = true) :
    scanCount p start n ≤ scanCount q start n := by
  induction n generalizing start with
  | zero => simp [scanCount]
  | succ n ih =>
    by_cases hp : p start = true
    · have hq : q start = true := h start hp
      simpa [scanCount, hp, hq, Nat.succ_le_succ_iff] using ih (start + 1)
    · simp [scanCount, hp]

theorem scanCount_zero_of_head (p : Nat → Bool) (start n : Nat)
    (h : p start = false) : scanCount p start n = 0 := by
  cases n with
  | zero => rfl
  | succ n => simp [scanCount, h]

theorem scanCount_shift (p : Nat → Bool) (start n : Nat) :
    scanCount p (start + 1) n = scanCount (fun i => p (i + 1)) start n := by
  induction n generalizing start with
  | zero => rfl
  | succ n ih => simp [scanCount, ih (start + 1)]

theorem scanCount_eq_takeWhile_length (p : Nat → Bool) (n : Nat) :
    scanCount p 0 n = ((List.range n).takeWhile p).length := by
  induction n generalizing p with
  | zero => rfl
  | succ n ih =>
    rw [List.range_succ_eq_map]
    by_cases hp : p 0 = true
    · have hshift := scanCount_shift p 0 n
      have htail := ih (fun i => p (i + 1))
      simp only [scanCount, hp, if_true, List.takeWhile_cons,
        List.takeWhile_map, List.length_cons, List.length_map, hshift, htail]
      rfl
    · simp [scanCount, hp, List.takeWhile_cons]

/-- If the first `n` indices all satisfy `p`, the scan consumes them all
(the degenerate fully-black case), specialised to `start = 0`. -/
theorem scanCount_full (p : Nat → Bool) (n : Nat)
    (h : ∀ k < n, p k = true) : scanCount p 0 n = n :=
  scanCount_eq_of_all p 0 n (by simpa using h)

/-- Opposite scans over one axis: if together they reach or exceed the
extent of a nonempty axis, each one consumed the whole axis. -/
theorem scanCount_pair_full (p : Nat → Bool) (n : Nat) (_hn : 1 ≤ n)
    (h : n ≤ scanCount p 0 n + scanCount (fun k => p (n - 1 - k)) 0 n) :
    scanCount p 0 n = n ∧ scanCount (fun k => p (n - 1 - k)) 0 n = n := by
  have halen : scanCount p 0 n ≤ n := scanCount_le _ _ _
  have hblen : scanCount (fun k => p (n - 1 - k)) 0 n ≤ n := scanCount_le _ _ _
  have hafull : scanCount p 0 n = n := by
    by_contra hne
    have halt : scanCount p 0 n < n := lt_of_le_of_ne halen hne
    have hstop : p (scanCount p 0 n) = false := by
      simpa using scanCount_stop p 0 n halt
    have hk : n - 1 - scanCount p 0 n < scanCount (fun k => p (n - 1 - k)) 0 n := by
      omega
    have hmem := scanCount_prefix (fun k => p (n - 1 - k)) 0 n _ hk
    have hidx : n - 1 - (n - 1 - scanCount p 0 n) = scanCount p 0 n := by omega
    simp only [Nat.zero_add] at hmem
    rw [hidx, hstop] at hmem
    exact Bool.noConfusion hmem
  refine ⟨hafull, ?_⟩
  have hall : ∀ k < n, p k = true := by
    intro k hk
    simpa using scanCount_prefix p 0 n k (by omega)
  exact scanCount_full _ n (fun k hk => hall (n - 1 - k) (by omega))

/-- Opposite scans over one axis: as soon as one index fails the line
predicate, the two scan counts together stay strictly below the extent. -/
theorem scanCount_pair_lt (p : Nat → Bool) (n : Nat)
    (h : ∃ i, i < n ∧ p i = false) :
    scanCount p 0 n + scanCount (fun k => p (n - 1 - k)) 0 n < n := by
  obtain ⟨i, hi, hpi⟩ := h
  by_contra hge
  push_neg at hge
  obtain ⟨hfull, -⟩ := scanCount_pair_full p n (by omega) hge
  have : p i = true := by
    simpa using scanCount_prefix p 0 n i (by omega)
  rw [hpi] at this
  exact Bool.noConfusion this

/-- When all four measured offsets are zero, the crop box is the full
image and `unletterbox` hands the image back unchanged (the save step
restores the original format tag). -/
theorem unletterbox_of_offsets_zero (image : Image) (T : Nat)
    (htop : detect_top_border (toGrayscale image) T = 0)
    (hbot : detect_bottom_border (toGrayscale image) T = 0)
    (hleft : detect_left_border (toGrayscale image) T = 0)
    (hright : detect_right_border (toGrayscale image) T = 0) :
    unletterbox image T = Except.ok image := by
  simp only [unletterbox, htop, hbot, hleft, hright, Image.crop, Nat.sub_zero]
  rw [if_neg (Nat.not_lt_zero _), if_neg (Nat.not_lt_zero _)]
  refine congrArg Except.ok ?_
  ext x y
  · rfl
  · rfl
  · rfl
  · simp [Nat.zero_add]

/-! ### The claims -/

/-- C1: `is_pixel_black` is true on a grayscale pixel iff its luminance is
strictly below the threshold, and on an RGB pixel iff every channel is at
most the threshold; hence for any threshold T in [0, 255] the RGB pixel
(T, T, T) is classified as border while the grayscale pixel T is not. -/
theorem c1_pixel_predicate (T : Nat) (_hT : T ≤ 255) :
    (∀ v, is_pixel_black (Pixel.gray v) T = true ↔ v < T) ∧
    (∀ r g b, is_pixel_black (Pixel.rgb r g b) T = true ↔
      r ≤ T ∧ g ≤ T ∧ b ≤ T) ∧
    is_pixel_black (Pixel.rgb T T T) T = true ∧
    is_pixel_black (Pixel.gray T) T = false := by
  refine ⟨fun v => by simp [is_pixel_black],
    fun r g b => by simp [is_pixel_black, and_assoc],
    by simp [is_pixel_black],
    by simp [is_pixel_black]⟩

theorem c1_pixel_predicate_witness :
    is_pixel_black (Pixel.rgb 255 255 255) 255 = true ∧
    is_pixel_black (Pixel.gray 255) 255 = false :=
  ⟨(c1_pixel_predicate 255 (by decide)).2.2.1,
   (c1_pixel_predicate 255 (by decide)).2.2.2⟩

/-- C2: each scanner returns the count of consecutive fully-border lines
from its edge (rows for top/bottom, columns for left/right, bottom/right
counted from the far edge), stopping at the first line with a non-border
pixel; when every line along the axis is fully border the scan returns the
full dimension. -/
theorem c2_edge_scanners (image : Image) (T : Nat) :
    detect_top_border image T =
      ((List.range image.height).takeWhile
        (fun y => line_all_black (row_pixels image y) T)).length ∧
    detect_bottom_border image T =
      ((List.range image.height).takeWhile
        (fun k => line_all_black (row_pixels image (image.height - 1 - k))
          T)).length ∧
    detect_left_border image T =
      ((List.range image.width).takeWhile
        (fun x => line_all_black (col_pixels image x) T)).length ∧
    detect_right_border image T =
      ((List.range image.width).takeWhile
        (fun k => line_all_black (col_pixels image (image.width - 1 - k))
          T)).length ∧
    ((∀ y < image.height, line_all_black (row_pixels image y) T = true) →
      detect_top_border image T = image.height ∧
      detect_bottom_border image T = image.height) ∧
    ((∀ x < image.width, line_all_black (col_pixels image x) T = true) →
      detect_left_border image T = image.width ∧
      detect_right_border image T = image.width) := by
  refine ⟨scanCount_eq_takeWhile_length _ _,
    scanCount_eq_takeWhile_length _ _,
    scanCount_eq_takeWhile_length _ _,
    scanCount_eq_takeWhile_length _ _,
    fun h => ⟨scanCount_full _ _ (fun k hk => h k hk),
      scanCount_full _ _ (fun k hk => h _ (by omega))⟩,
    fun h => ⟨scanCount_full _ _ (fun k hk => h k hk),
      scanCount_full _ _ (fun k hk => h _ (by omega))⟩⟩

theorem c2_edge_scanners_witness :
    detect_top_border allBlack2 1 = 2 ∧
    detect_bottom_border allBlack2 1 = 2 ∧
    detect_left_border allBlack2 1 = 2 ∧
    detect_right_border allBlack2 1 = 2 := by
  obtain ⟨-, -, -, -, hrow, hcol⟩ := c2_edge_scanners allBlack2 1
  obtain ⟨h1, h2⟩ := hrow (by decide)
  obtain ⟨h3, h4⟩ := hcol (by decide)
  exact ⟨h1, h2, h3, h4⟩

/-- C8: each of the four computed border widths is monotone non-decreasing
in the threshold. -/
theorem c8_threshold_monotone (image : Image) (T1 T2 : Nat) (h : T1 ≤ T2) :
    detect_top_border image T1 ≤ detect_top_border image T2 ∧
    detect_bottom_border image T1 ≤ detect_bottom_border image T2 ∧
    detect_left_border image T1 ≤ detect_left_border image T2 ∧
    detect_right_border image T1 ≤ detect_right_border image T2 := by
  have hpix : ∀ pixel, is_pixel_black pixel T1 = true →
      is_pixel_black pixel T2 = true := by
    intro pixel hp
    cases pixel with
    | gray v =>
      simp only [is_pixel_black, decide_eq_true_eq] at hp ⊢
      omega
    | rgb r g b =>
      simp only [is_pixel_black, Bool.and_eq_true, decide_eq_true_eq] at hp ⊢
      omega
  have hline : ∀ pixels, line_all_black pixels T1 = true →
      line_all_black pixels T2 = true := by
    intro pixels hp
    rw [line_all_black, List.all_eq_true] at hp ⊢
    exact fun pixel hmem => hpix pixel (hp pixel hmem)
  exact ⟨scanCount_mono _ _ _ _ (fun i => hline _),
    scanCount_mono _ _ _ _ (fun i => hline _),
    scanCount_mono _ _ _ _ (fun i => hline _),
    scanCount_mono _ _ _ _ (fun i => hline _)⟩

theorem c8_threshold_monotone_witness :
    detect_top_border allBlack2 0 ≤ detect_top_border allBlack2 1 ∧
    detect_bottom_border allBlack2 0 ≤ detect_bottom_border allBlack2 1 ∧
    detect_left_border allBlack2 0 ≤ detect_left_border allBlack2 1 ∧
    detect_right_border allBlack2 0 ≤ detect_right_border allBlack2 1 :=
  c8_threshold_monotone allBlack2 0 1 (by decide)

/-- C9: as soon as one row contains a non-border pixel, the top and bottom
offsets sum to strictly less than the height, and symmetrically for
columns and the width, so the crop rectangle is non-empty on that axis. -/
theorem c9_crop_nonempty (image : Image) (T : Nat) :
    ((∃ y, y < image.height ∧
        line_all_black (row_pixels image y) T = false) →
      detect_top_border image T + detect_bottom_border image T <
        image.height) ∧
    ((∃ x, x < image.width ∧
        line_all_black (col_pixels image x) T = false) →
      detect_left_border image T + detect_right_border image T <
        image.width) :=
  ⟨fun h => scanCount_pair_lt _ _ h, fun h => scanCount_pair_lt _ _ h⟩

theorem c9_crop_nonempty_witness :
    detect_top_border white1 0 + detect_bottom_border white1 0 <
      white1.height ∧
    detect_left_border white1 0 + detect_right_border white1 0 <
      white1.width :=
  ⟨(c9_crop_nonempty white1 0).1 ⟨0, by decide, by decide⟩,
   (c9_crop_nonempty white1 0).2 ⟨0, by decide, by decide⟩⟩

/-- C3: detection happens on the grayscale view only, the crop is taken
from the original color data with the box
(left, top, width - right, height - bottom), and the output keeps the
original format with pixel values copied verbatim from the original
image (only the extents change).  The hypotheses state that the measured
borders leave a well-formed rectangle, so the crop succeeds. -/
theorem c3_crop_geometry (image : Image) (T : Nat)
    (hx : detect_left_border (toGrayscale image) T +
      detect_right_border (toGrayscale image) T ≤ image.width)
    (hy : detect_top_border (toGrayscale image) T +
      detect_bottom_border (toGrayscale image) T ≤ image.height) :
    unletterbox image T = Except.ok
      { width := image.width - detect_right_border (toGrayscale image) T -
          detect_left_border (toGrayscale image) T
        height := image.height - detect_bottom_border (toGrayscale image) T -
          detect_top_border (toGrayscale image) T
        format := image.format
        px := fun x y => image.px
          (detect_left_border (toGrayscale image) T + x)
          (detect_top_border (toGrayscale image) T + y) } := by
  have hr : detect_right_border (toGrayscale image) T ≤ image.width :=
    scanCount_le _ _ _
  have hb : detect_bottom_border (toGrayscale image) T ≤ image.height :=
    scanCount_le _ _ _
  simp only [unletterbox, Image.crop]
  rw [if_neg (by omega), if_neg (by omega)]

theorem c3_crop_geometry_witness :
    unletterbox white1 0 =
      Except.ok ⟨1, 1, "PNG", fun _ _ => Pixel.gray 200⟩ :=
  c3_crop_geometry white1 0 (by decide) (by decide)

/-- C4 counterexample: on the all-zero 1 × 1 image with threshold 1 every
measured border equals the full dimension, yet `unletterbox` surfaces the
image library generic inverted-box ValueError from the crop call; the code
defines no degenerate-geometry check and no DegenerateGeometryError. -/
theorem c4_counterexample :
    unletterbox zero1 1 = Except.error "Coordinate right is less than left" :=
  rfl

/-- C4 (amended): whenever the measured border widths are degenerate
(left + right at least the width, or top + bottom at least the height, on
an image with positive extents), `unletterbox` does not return an image:
the inverted crop box reaches the library crop, which fails with its
generic inverted-coordinate ValueError — not a distinct
degenerate-geometry error. -/
theorem c4_degenerate_geometry_error (image : Image) (T : Nat)
    (hW : 1 ≤ image.width) (hH : 1 ≤ image.height)
    (hdeg : image.width ≤ detect_left_border (toGrayscale image) T +
        detect_right_border (toGrayscale image) T ∨
      image.height ≤ detect_top_border (toGrayscale image) T +
        detect_bottom_border (toGrayscale image) T) :
    unletterbox image T = Except.error "Coordinate right is less than left" ∨
    unletterbox image T =
      Except.error "Coordinate lower is less than upper" := by
  by_cases hx : image.width ≤ detect_left_border (toGrayscale image) T +
      detect_right_border (toGrayscale image) T
  · left
    obtain ⟨hl, hr⟩ := scanCount_pair_full
      (fun x => line_all_black (col_pixels (toGrayscale image) x) T)
      image.width hW hx
    have hleft : detect_left_border (toGrayscale image) T = image.width := hl
    have hright : detect_right_border (toGrayscale image) T = image.width := hr
    simp only [unletterbox, Image.crop, hleft, hright]
    rw [if_pos (by omega)]
  · right
    have hy : image.height ≤ detect_top_border (toGrayscale image) T +
        detect_bottom_border (toGrayscale image) T := hdeg.resolve_left hx
    obtain ⟨ht, hb⟩ := scanCount_pair_full
      (fun y => line_all_black (row_pixels (toGrayscale image) y) T)
      image.height hH hy
    have htop : detect_top_border (toGrayscale image) T = image.height := ht
    have hbot : detect_bottom_border (toGrayscale image) T = image.height := hb
    simp only [unletterbox, Image.crop, htop, hbot]
    rw [if_neg (by omega), if_pos (by omega)]

theorem c4_degenerate_geometry_error_witness :
    unletterbox zero1 1 = Except.error "Coordinate right is less than left" ∨
    unletterbox zero1 1 =
      Except.error "Coordinate lower is less than upper" :=
  c4_degenerate_geometry_error zero1 1 (by decide) (by decide)
    (Or.inl (by decide))

/-- C5 counterexample: through `unletterbox`, scanning runs on the
grayscale view, whose predicate is the strict comparison `pixel < 0`; so
for the all-zero 1 × 1 image at threshold 0 every offset is 0, not the
full dimension 1. -/
theorem c5_counterexample :
    detect_top_border (toGrayscale zero1) 0 = 0 ∧
    detect_bottom_border (toGrayscale zero1) 0 = 0 ∧
    detect_left_border (toGrayscale zero1) 0 = 0 ∧
    detect_right_border (toGrayscale zero1) 0 = 0 ∧
    zero1.width = 1 ∧ zero1.height = 1 := by
  decide

/-- C5 (amended): for an image whose every pixel has luminance 0, scanned
through the grayscale view as `unletterbox` does, every offset equals the
full dimension once the threshold is at least 1 (at threshold 0 the strict
grayscale comparison classifies nothing as border). -/
theorem c5_all_zero_full_offsets (image : Image) (T : Nat)
    (hz : ∀ x y, luminance (image.px x y) = 0) (hT : 1 ≤ T) :
    detect_top_border (toGrayscale image) T = image.height ∧
    detect_bottom_border (toGrayscale image) T = image.height ∧
    detect_left_border (toGrayscale image) T = image.width ∧
    detect_right_border (toGrayscale image) T = image.width := by
  have hblack : ∀ x y,
      is_pixel_black ((toGrayscale image).px x y) T = true := by
    intro x y
    simp only [toGrayscale, is_pixel_black, hz, decide_eq_true_eq]
    omega
  have hrow : ∀ y,
      line_all_black (row_pixels (toGrayscale image) y) T = true := by
    intro y
    apply List.all_eq_true.mpr
    intro p hp
    simp only [row_pixels, List.mem_map, List.mem_range] at hp
    obtain ⟨x, -, rfl⟩ := hp
    exact hblack x y
  have hcol : ∀ x,
      line_all_black (col_pixels (toGrayscale image) x) T = true := by
    intro x
    apply List.all_eq_true.mpr
    intro p hp
    simp only [col_pixels, List.mem_map, List.mem_range] at hp
    obtain ⟨y, -, rfl⟩ := hp
    exact hblack x y
  exact ⟨scanCount_full _ _ (fun k _ => hrow k),
    scanCount_full _ _ (fun k _ => hrow _),
    scanCount_full _ _ (fun k _ => hcol k),
    scanCount_full _ _ (fun k _ => hcol _)⟩

theorem c5_all_zero_full_offsets_witness :
    detect_top_border (toGrayscale allBlack2) 1 = allBlack2.height ∧
    detect_bottom_border (toGrayscale allBlack2) 1 = allBlack2.height ∧
    detect_left_border (toGrayscale allBlack2) 1 = allBlack2.width ∧
    detect_right_border (toGrayscale allBlack2) 1 = allBlack2.width :=
  c5_all_zero_full_offsets allBlack2 1 (fun _ _ => rfl) (by decide)

/-- A line that contains a non-black pixel is not all-black. -/
theorem line_not_all_black_of_mem (pixels : List Pixel) (T : Nat)
    (p : Pixel) (hmem : p ∈ pixels) (hp : is_pixel_black p T = false) :
    line_all_black pixels T = false := by
  apply Bool.eq_false_iff.mpr
  intro hall
  have := List.all_eq_true.mp hall p hmem
  rw [hp] at this
  exact Bool.noConfusion this

/-- C6: when the first and last row and the first and last column of the
grayscale view each contain a non-border pixel at threshold T, all four
offsets are 0 and the cropped output is the original image unchanged. -/
theorem c6_zero_border_identity (image : Image) (T : Nat)
    (htop : ∃ x, x < image.width ∧
      is_pixel_black ((toGrayscale image).px x 0) T = false)
    (hbot : ∃ x, x < image.width ∧
      is_pixel_black ((toGrayscale image).px x (image.height - 1)) T = false)
    (hleft : ∃ y, y < image.height ∧
      is_pixel_black ((toGrayscale image).px 0 y) T = false)
    (hright : ∃ y, y < image.height ∧
      is_pixel_black ((toGrayscale image).px (image.width - 1) y) T = false) :
    detect_top_border (toGrayscale image) T = 0 ∧
    detect_bottom_border (toGrayscale image) T = 0 ∧
    detect_left_border (toGrayscale image) T = 0 ∧
    detect_right_border (toGrayscale image) T = 0 ∧
    unletterbox image T = Except.ok image := by
  obtain ⟨xt, hxt, hpt⟩ := htop
  obtain ⟨xb, hxb, hpb⟩ := hbot
  obtain ⟨yl, hyl, hpl⟩ := hleft
  obtain ⟨yr, hyr, hpr⟩ := hright
  have hrow0 : line_all_black (row_pixels (toGrayscale image) 0) T = false :=
    line_not_all_black_of_mem _ T _
      (List.mem_map.mpr ⟨xt, List.mem_range.mpr hxt, rfl⟩) hpt
  have hrowlast : line_all_black
      (row_pixels (toGrayscale image) (image.height - 1)) T = false :=
    line_not_all_black_of_mem _ T _
      (List.mem_map.mpr ⟨xb, List.mem_range.mpr hxb, rfl⟩) hpb
  have hcol0 : line_all_black (col_pixels (toGrayscale image) 0) T = false :=
    line_not_all_black_of_mem _ T _
      (List.mem_map.mpr ⟨yl, List.mem_range.mpr hyl, rfl⟩) hpl
  have hcollast : line_all_black
      (col_pixels (toGrayscale image) (image.width - 1)) T = false :=
    line_not_all_black_of_mem _ T _
      (List.mem_map.mpr ⟨yr, List.mem_range.mpr hyr, rfl⟩) hpr
  have h1 : detect_top_border (toGrayscale image) T = 0 :=
    scanCount_zero_of_head _ _ _ hrow0
  have h2 : detect_bottom_border (toGrayscale image) T = 0 :=
    scanCount_zero_of_head _ _ _ hrowlast
  have h3 : detect_left_border (toGrayscale image) T = 0 :=
    scanCount_zero_of_head _ _ _ hcol0
  have h4 : detect_right_border (toGrayscale image) T = 0 :=
    scanCount_zero_of_head _ _ _ hcollast
  exact ⟨h1, h2, h3, h4, unletterbox_of_offsets_zero image T h1 h2 h3 h4⟩

theorem c6_zero_border_identity_witness :
    detect_top_border (toGrayscale white1) 0 = 0 ∧
    detect_bottom_border (toGrayscale white1) 0 = 0 ∧
    detect_left_border (toGrayscale white1) 0 = 0 ∧
    detect_right_border (toGrayscale white1) 0 = 0 ∧
    unletterbox white1 0 = Except.ok white1 :=
  c6_zero_border_identity white1 0 ⟨0, by decide, by decide⟩
    ⟨0, by decide, by decide⟩ ⟨0, by decide, by decide⟩
    ⟨0, by decide, by decide⟩

/-- C7: an already-cropped image (all four measured offsets are 0 at
threshold T) is a fixed point of `unletterbox`: one application returns it
unchanged, and so does applying `unletterbox` a second time with the same
threshold to the first result. -/
theorem c7_idempotent_fixed_point (image : Image) (T : Nat)
    (h : detect_top_border (toGrayscale image) T = 0 ∧
      detect_bottom_border (toGrayscale image) T = 0 ∧
      detect_left_border (toGrayscale image) T = 0 ∧
      detect_right_border (toGrayscale image) T = 0) :
    unletterbox image T = Except.ok image ∧
    (unletterbox image T).bind (fun c => unletterbox c T) =
      Except.ok image := by
  obtain ⟨h1, h2, h3, h4⟩ := h
  have hfix := unletterbox_of_offsets_zero image T h1 h2 h3 h4
  refine ⟨hfix, ?_⟩
  rw [hfix]
  exact hfix

theorem c7_idempotent_fixed_point_witness :
    unletterbox white1 0 = Except.ok white1 ∧
    (unletterbox white1 0).bind (fun c => unletterbox c 0) =
      Except.ok white1 :=
  c7_idempotent_fixed_point white1 0 (by decide)

/-- C10 counterexample: on a 0-wide, 1-tall image every row is vacuously
all-border (Python `all` over an empty row), so at threshold 0 the top
offset is the full height 1, not 0: the zero-offset part of the claim
fails for images with a zero extent. -/
theorem c10_counterexample :
    detect_top_border (toGrayscale empty01) 0 = 1 ∧ empty01.height = 1 := by
  decide

/-- C10 (amended): `unletterbox` scans only the grayscale view, whose
pixels are all single-channel values, so only the strict-comparison branch
of the predicate runs, and at the default threshold 0 no pixel is ever
border; provided both extents are positive (so no line is vacuously
empty), all four offsets are 0 and the output is the full original image
re-encoded. -/
theorem c10_grayscale_default_threshold (image : Image) :
    (∀ x y, (toGrayscale image).px x y =
      Pixel.gray (luminance (image.px x y))) ∧
    (∀ x y, is_pixel_black ((toGrayscale image).px x y) 0 = false) ∧
    (1 ≤ image.width → 1 ≤ image.height →
      detect_top_border (toGrayscale image) 0 = 0 ∧
      detect_bottom_border (toGrayscale image) 0 = 0 ∧
      detect_left_border (toGrayscale image) 0 = 0 ∧
      detect_right_border (toGrayscale image) 0 = 0 ∧
      unletterbox image 0 = Except.ok image) := by
  have hnotblack : ∀ x y,
      is_pixel_black ((toGrayscale image).px x y) 0 = false := by
    intro x y
    simp [toGrayscale, is_pixel_black]
  refine ⟨fun x y => rfl, hnotblack, fun hW hH => ?_⟩
  have hrow : ∀ y,
      line_all_black (row_pixels (toGrayscale image) y) 0 = false := by
    intro y
    exact line_not_all_black_of_mem _ 0 _
      (List.mem_map.mpr ⟨0, List.mem_range.mpr hW, rfl⟩) (hnotblack 0 y)
  have hcol : ∀ x,
      line_all_black (col_pixels (toGrayscale image) x) 0 = false := by
    intro x
    exact line_not_all_black_of_mem _ 0 _
      (List.mem_map.mpr ⟨0, List.mem_range.mpr hH, rfl⟩) (hnotblack x 0)
  have h1 : detect_top_border (toGrayscale image) 0 = 0 :=
    scanCount_zero_of_head _ _ _ (hrow 0)
  have h2 : detect_bottom_border (toGrayscale image) 0 = 0 :=
    scanCount_zero_of_head _ _ _ (hrow _)
  have h3 : detect_left_border (toGrayscale image) 0 = 0 :=
    scanCount_zero_of_head _ _ _ (hcol 0)
  have h4 : detect_right_border (toGrayscale image) 0 = 0 :=
    scanCount_zero_of_head _ _ _ (hcol _)
  exact ⟨h1, h2, h3, h4, unletterbox_of_offsets_zero image 0 h1 h2 h3 h4⟩

theorem c10_grayscale_default_threshold_witness :
    detect_top_border (toGrayscale white1) 0 = 0 ∧
    detect_bottom_border (toGrayscale white1) 0 = 0 ∧
    detect_left_border (toGrayscale white1) 0 = 0 ∧
    detect_right_border (toGrayscale white1) 0 = 0 ∧
    unletterbox white1 0 = Except.ok white1 :=
  (c10_grayscale_default_threshold white1).2.2 (by decide) (by decide)
